import Mathlib

/-!
Shallow embedding of the pngme chunk codec (src/chunk_type.rs, src/chunk.rs).
Bytes are modelled as `Nat` (a Rust `u8` is a value < 256; hypotheses state
this bound where a claim needs it), `u32` arithmetic uses explicit `% 2^32`,
and fallible Rust operations return `Except`.
-/

deriving instance DecidableEq for Except

namespace Pngme

/-! ### ChunkType (src/chunk_type.rs) -/

/-- `u8::is_ascii_lowercase`. -/
def isAsciiLowercase (b : Nat) : Bool := 97 ≤ b && b ≤ 122

/-- `u8::is_ascii_uppercase`. -/
def isAsciiUppercase (b : Nat) : Bool := 65 ≤ b && b ≤ 90

/-- The per-byte check of `ChunkType::validate_chars`. -/
def isAsciiLetter (b : Nat) : Bool := isAsciiLowercase b || isAsciiUppercase b

/-- The `ChunkType` struct: a fixed array of 4 bytes. -/
structure ChunkType where
  b0 : Nat
  b1 : Nat
  b2 : Nat
  b3 : Nat
deriving DecidableEq, Repr

/-- `ChunkType::bytes`, as the list of the four stored bytes. -/
def ChunkType.bytes (t : ChunkType) : List Nat := [t.b0, t.b1, t.b2, t.b3]

/-- Reinterpret bytes as characters, as `Display for ChunkType` does. -/
def strOfBytes (bs : List Nat) : String := String.mk (bs.map Char.ofNat)

/-- `ChunkType::to_string` via the `Display` impl. -/
def ChunkType.str (t : ChunkType) : String := strOfBytes t.bytes

/-- Loop body of `ChunkType::validate_chars`, tracking the current index. -/
def validateCharsAux : Nat → List Nat → Option (Nat × Nat)
  | _, [] => none
  | i, b :: rest =>
    if isAsciiLetter b then validateCharsAux (i + 1) rest else some (b, i)

/-- `ChunkType::validate_chars`: first non-letter byte with its zero-based
position, or `none` when every byte is an ASCII letter. -/
def validate_chars (bs : List Nat) : Option (Nat × Nat) := validateCharsAux 0 bs

/-- `ChunkType::is_length_valid`: `self.bytes.len() == 4`. -/
def ChunkType.is_length_valid (t : ChunkType) : Bool := t.bytes.length == 4

/-- `ChunkType::is_critical`: bit 5 of byte 0 is clear. -/
def ChunkType.is_critical (t : ChunkType) : Bool := t.b0 &&& 32 == 0

/-- `ChunkType::is_public`: bit 5 of byte 1 is clear. -/
def ChunkType.is_public (t : ChunkType) : Bool := t.b1 &&& 32 == 0

/-- `ChunkType::is_reserved_bit_valid`: bit 5 of byte 2 is clear. -/
def ChunkType.is_reserved_bit_valid (t : ChunkType) : Bool := t.b2 &&& 32 == 0

/-- `ChunkType::is_safe_to_copy`: bit 5 of byte 3 is set (`> 0` in the code). -/
def ChunkType.is_safe_to_copy (t : ChunkType) : Bool := decide (0 < t.b3 &&& 32)

/-- The error cases raised by `ChunkType`, one constructor per `bail!`/`ensure!`
site, carrying the data the corresponding format string interpolates. -/
inductive TypeError
  | invalidLength (s : String)
  | invalidCharacter (s : String) (c : Nat) (pos : Nat)
  | reservedBitInvalid (s : String)
deriving DecidableEq, Repr

/-- `ChunkType::is_valid`: character check, then length check, then the
reserved-bit check, in the order of the source. -/
def ChunkType.is_valid (t : ChunkType) : Except TypeError Unit :=
  match validate_chars t.bytes with
  | some (c, i) => .error (.invalidCharacter t.str c i)
  | none =>
    if t.is_length_valid then
      if t.is_reserved_bit_valid then .ok ()
      else .error (.reservedBitInvalid t.str)
    else .error (.invalidLength t.str)

/-- Errors of `ChunkType::is_valid_for_message`, one constructor per failure
site in the source. -/
inductive MsgError
  | notValid (e : TypeError)
  | chunkCritical (s : String)
  | chunkPublic (s : String)
  | notSafeToCopy (s : String)
deriving DecidableEq, Repr

/-- `ChunkType::is_valid_for_message`: validity, then non-critical, then
private, then safe-to-copy. -/
def ChunkType.is_valid_for_message (t : ChunkType) : Except MsgError Unit :=
  match t.is_valid with
  | .error e => .error (.notValid e)
  | .ok _ =>
    if t.is_critical then .error (.chunkCritical t.str)
    else if t.is_public then .error (.chunkPublic t.str)
    else if !t.is_safe_to_copy then .error (.notSafeToCopy t.str)
    else .ok ()

/-- `impl TryFrom<[u8; 4]> for ChunkType`: builds the value, runs `is_valid`,
and propagates its error. -/
def ChunkType.tryFromBytes (a b c d : Nat) : Except TypeError ChunkType :=
  let t : ChunkType := ⟨a, b, c, d⟩
  match t.is_valid with
  | .error e => .error e
  | .ok _ => .ok t

/-- `impl FromStr for ChunkType`, on the byte view of the input string:
character check first, then the length check. -/
def ChunkType.from_str (bs : List Nat) : Except TypeError ChunkType :=
  match validate_chars bs with
  | some (c, i) => .error (.invalidCharacter (strOfBytes bs) c i)
  | none =>
    match bs with
    | [a, b, c, d] => .ok ⟨a, b, c, d⟩
    | _ => .error (.invalidLength (strOfBytes bs))

/-! ### CRC-32 ISO-HDLC (`crc::CRC_32_ISO_HDLC`, used by `Chunk::calculate_crc`)
Reflected algorithm: polynomial 0xEDB88320, init 0xFFFFFFFF, xorout
0xFFFFFFFF. -/

/-- The reflected CRC-32 polynomial. -/
def crcPoly : Nat := 0xEDB88320

/-- One bit step of the reflected CRC-32. -/
def crcStep (c : Nat) : Nat :=
  if c % 2 = 1 then (c / 2) ^^^ crcPoly else c / 2

/-- Eight bit steps. -/
def crcStep8 (c : Nat) : Nat :=
  crcStep (crcStep (crcStep (crcStep (crcStep (crcStep (crcStep (crcStep c)))))))

/-- Absorb one message byte into the CRC state. -/
def crcUpdate (c b : Nat) : Nat := crcStep8 (c ^^^ b)

/-- Fold the CRC state over a byte list. -/
def crcFold : Nat → List Nat → Nat
  | c, [] => c
  | c, b :: bs => crcFold (crcUpdate c b) bs

/-- `Chunk::calculate_crc`: CRC-32 ISO-HDLC checksum of a byte sequence. -/
def calculate_crc (bs : List Nat) : Nat := crcFold 0xFFFFFFFF bs ^^^ 0xFFFFFFFF

/-! ### Chunk (src/chunk.rs) -/

/-- `u32::from_be_bytes` on four bytes. -/
def u32FromBe (a b c d : Nat) : Nat := ((a * 256 + b) * 256 + c) * 256 + d

/-- `u32::to_be_bytes` of a value below `2^32`. -/
def u32BeBytes (n : Nat) : List Nat :=
  [n / 16777216 % 256, n / 65536 % 256, n / 256 % 256, n % 256]

/-- The `Chunk` struct. -/
structure Chunk where
  length : Nat
  chunk_type : ChunkType
  chunk_data : List Nat
  crc : Nat
deriving DecidableEq, Repr

/-- `Chunk::new`: length is the payload length cast to `u32`, checksum is the
CRC over type bytes followed by payload. -/
def Chunk.new (t : ChunkType) (d : List Nat) : Chunk :=
  { length := d.length % 4294967296
    chunk_type := t
    chunk_data := d
    crc := calculate_crc (t.bytes ++ d) }

/-- `Chunk::as_bytes`: big-endian length, type bytes, payload, big-endian CRC. -/
def Chunk.as_bytes (c : Chunk) : List Nat :=
  u32BeBytes c.length ++ c.chunk_type.bytes ++ c.chunk_data ++ u32BeBytes c.crc

/-- Error cases of `impl TryFrom<&[u8]> for Chunk`, one constructor per
failing `context`/`ensure!` site, in source order. -/
inductive ChunkError
  | readLength
  | readType
  | typeNotValid (e : TypeError)
  | readData
  | readCrc
  | crcMismatch (received : Nat) (expected : Nat)
deriving DecidableEq, Repr

/-- `read_exact` into a 4-byte buffer: succeeds only when 4 bytes remain. -/
def read4 : List Nat → Option ((Nat × Nat × Nat × Nat) × List Nat)
  | a :: b :: c :: d :: rest => some ((a, b, c, d), rest)
  | _ => none

/-- `read_exact` into a buffer of `n` bytes. -/
def readExact (n : Nat) (s : List Nat) : Option (List Nat × List Nat) :=
  if n ≤ s.length then some (s.take n, s.drop n) else none

/-- `impl TryFrom<&[u8]> for Chunk`: length, type (validated), payload,
stored CRC, then the checksum comparison. -/
def chunkTryFrom (data : List Nat) : Except ChunkError Chunk :=
  match read4 data with
  | none => .error .readLength
  | some ((l0, l1, l2, l3), s1) =>
    match read4 s1 with
    | none => .error .readType
    | some ((t0, t1, t2, t3), s2) =>
      match ChunkType.tryFromBytes t0 t1 t2 t3 with
      | .error e => .error (.typeNotValid e)
      | .ok ct =>
        match readExact (u32FromBe l0 l1 l2 l3) s2 with
        | none => .error .readData
        | some (dataBuf, s3) =>
          match read4 s3 with
          | none => .error .readCrc
          | some ((c0, c1, c2, c3), _) =>
            let crc := u32FromBe c0 c1 c2 c3
            let calculated := calculate_crc ([t0, t1, t2, t3] ++ dataBuf)
            if crc = calculated then
              .ok { length := u32FromBe l0 l1 l2 l3
                    chunk_type := ct
                    chunk_data := dataBuf
                    crc := crc }
            else .error (.crcMismatch crc calculated)

/-! ### Helper lemmas: `validate_chars` -/

theorem validateCharsAux_none (bs : List Nat) :
    ∀ i, validateCharsAux i bs = none ↔ ∀ b ∈ bs, isAsciiLetter b = true := by
  induction bs with
  | nil => intro i; simp [validateCharsAux]
  | cons b rest ih =>
    intro i
    cases hb : isAsciiLetter b with
    | true => simp [validateCharsAux, hb, ih]
    | false =>
      simp only [validateCharsAux, hb, Bool.false_eq_true, if_false]
      constructor
      · intro h; cases h
      · intro h; exact absurd (h b (List.mem_cons_self b rest)) (by simp [hb])

theorem validate_chars_none (bs : List Nat) :
    validate_chars bs = none ↔ ∀ b ∈ bs, isAsciiLetter b = true :=
  validateCharsAux_none bs 0

theorem validateCharsAux_first (bs : List Nat) :
    ∀ i j c, j < bs.length → bs.getD j 0 = c → isAsciiLetter c = false →
      (∀ m, m < j → isAsciiLetter (bs.getD m 0) = true) →
      validateCharsAux i bs = some (c, i + j) := by
  induction bs with
  | nil => intro i j c hj _ _ _; simp at hj
  | cons b rest ih =>
    intro i j c hj hc hlet hprev
    cases j with
    | zero =>
      simp only [List.getD_cons_zero] at hc
      subst hc
      simp [validateCharsAux, hlet]
    | succ j =>
      have hb : isAsciiLetter b = true := by
        have := hprev 0 (Nat.succ_pos j)
        simpa using this
      have hr := ih (i + 1) j c (by simpa using hj) (by simpa using hc) hlet
        (fun m hm => by
          have := hprev (m + 1) (by omega)
          simpa using this)
      simp only [validateCharsAux, hb, if_true, hr]
      have : i + 1 + j = i + (j + 1) := by omega
      rw [this]

theorem validate_chars_first (bs : List Nat) (j c : Nat) (hj : j < bs.length)
    (hc : bs.getD j 0 = c) (hlet : isAsciiLetter c = false)
    (hprev : ∀ m, m < j → isAsciiLetter (bs.getD m 0) = true) :
    validate_chars bs = some (c, j) := by
  have := validateCharsAux_first bs 0 j c hj hc hlet hprev
  simpa [validate_chars] using this

/-! ### Helper lemmas: bit 5 and letter case -/

theorem and32_eq_zero_iff (x : Nat) : x &&& 32 = 0 ↔ x.testBit 5 = false := by
  have h32 : (32 : Nat) = 2 ^ 5 := by norm_num
  rw [h32, Nat.and_two_pow]
  cases h : x.testBit 5 <;> simp [h]

theorem testBit5_of_upper {b : Nat} (h : isAsciiUppercase b = true) :
    b.testBit 5 = false := by
  rw [Nat.testBit_to_div_mod]
  simp only [isAsciiUppercase, Bool.and_eq_true, decide_eq_true_eq] at h
  have h5 : (2 : Nat) ^ 5 = 32 := by norm_num
  rw [h5]
  simp only [decide_eq_false_iff_not]
  omega

theorem testBit5_of_lower {b : Nat} (h : isAsciiLowercase b = true) :
    b.testBit 5 = true := by
  rw [Nat.testBit_to_div_mod]
  simp only [isAsciiLowercase, Bool.and_eq_true, decide_eq_true_eq] at h
  have h5 : (2 : Nat) ^ 5 = 32 := by norm_num
  rw [h5]
  simp only [decide_eq_true_eq]
  omega

/-! ### Helper lemmas: u32 big-endian encoding -/

theorem u32FromBe_lt {a b c d : Nat} (ha : a < 256) (hb : b < 256) (hc : c < 256)
    (hd : d < 256) : u32FromBe a b c d < 4294967296 := by
  unfold u32FromBe; omega

theorem u32FromBe_u32BeBytes (n : Nat) (h : n < 4294967296) :
    u32FromBe (n / 16777216 % 256) (n / 65536 % 256) (n / 256 % 256) (n % 256) = n := by
  unfold u32FromBe; omega

theorem u32BeBytes_u32FromBe {a b c d : Nat} (ha : a < 256) (hb : b < 256) (hc : c < 256)
    (hd : d < 256) : u32BeBytes (u32FromBe a b c d) = [a, b, c, d] := by
  unfold u32BeBytes u32FromBe
  simp only [List.cons.injEq, and_true]
  refine ⟨by omega, by omega, by omega, by omega⟩

theorem u32BeBytes_lt (n : Nat) : ∀ b ∈ u32BeBytes n, b < 256 := by
  unfold u32BeBytes
  intro b hb
  simp only [List.mem_cons, List.not_mem_nil, or_false] at hb
  rcases hb with h | h | h | h <;> subst h <;> omega

/-! ### Helper lemmas: CRC-32 linearity and non-degeneracy -/

theorem xor_cancel_left (a b : Nat) : a ^^^ (a ^^^ b) = b := by
  rw [← Nat.xor_assoc, Nat.xor_self, Nat.zero_xor]

theorem xor_ne_self {a d : Nat} (hd : d ≠ 0) : a ^^^ d ≠ a := by
  intro h
  apply hd
  have h2 := congrArg (fun x => a ^^^ x) h
  simpa [xor_cancel_left, Nat.xor_self] using h2

theorem xor_lt_u32 {a b : Nat} (ha : a < 4294967296) (hb : b < 4294967296) :
    a ^^^ b < 4294967296 := by
  have h32 : (4294967296 : Nat) = 2 ^ 32 := by norm_num
  rw [h32] at ha hb ⊢
  exact Nat.xor_lt_two_pow ha hb

theorem crcStep_eq (c : Nat) :
    crcStep c = c / 2 ^^^ (if c % 2 = 1 then crcPoly else 0) := by
  unfold crcStep
  split <;> simp

theorem crcStep_xor (a b : Nat) :
    crcStep (a ^^^ b) = crcStep a ^^^ crcStep b := by
  rw [crcStep_eq, crcStep_eq, crcStep_eq, Nat.xor_div_two]
  rcases Nat.mod_two_eq_zero_or_one a with ha | ha <;>
    rcases Nat.mod_two_eq_zero_or_one b with hb | hb
  · rw [if_neg (by rw [Nat.xor_mod_two_eq]; omega), if_neg (by omega),
      if_neg (by omega)]
    simp
  · rw [if_pos (by rw [Nat.xor_mod_two_eq]; omega), if_neg (by omega), if_pos hb]
    simp [Nat.xor_assoc]
  · rw [if_pos (by rw [Nat.xor_mod_two_eq]; omega), if_pos ha, if_neg (by omega)]
    rw [Nat.xor_zero, Nat.xor_assoc, Nat.xor_comm (b / 2) crcPoly, ← Nat.xor_assoc]
  · rw [if_neg (by rw [Nat.xor_mod_two_eq]; omega), if_pos ha, if_pos hb]
    rw [Nat.xor_zero, Nat.xor_assoc (a / 2) crcPoly, Nat.xor_comm crcPoly (b / 2 ^^^ crcPoly),
      Nat.xor_assoc (b / 2) crcPoly, Nat.xor_self, Nat.xor_zero]

theorem crcStep8_xor (a b : Nat) :
    crcStep8 (a ^^^ b) = crcStep8 a ^^^ crcStep8 b := by
  simp [crcStep8, crcStep_xor]

theorem crcStep_lt {c : Nat} (h : c < 4294967296) : crcStep c < 4294967296 := by
  unfold crcStep
  split
  · exact xor_lt_u32 (by omega) (by norm_num [crcPoly])
  · omega

theorem crcStep_ne_zero {c : Nat} (h0 : c ≠ 0) (h : c < 4294967296) : crcStep c ≠ 0 := by
  unfold crcStep
  split
  · intro hx
    have h2 : c / 2 = crcPoly := Nat.xor_eq_zero.mp hx
    norm_num [crcPoly] at h2
    omega
  · intro hx
    omega

theorem crcStep8_lt {c : Nat} (h : c < 4294967296) : crcStep8 c < 4294967296 := by
  unfold crcStep8
  exact crcStep_lt (crcStep_lt (crcStep_lt (crcStep_lt (crcStep_lt (crcStep_lt
    (crcStep_lt (crcStep_lt h)))))))

theorem crcStep8_ne_zero {c : Nat} (h0 : c ≠ 0) (h : c < 4294967296) :
    crcStep8 c ≠ 0 := by
  unfold crcStep8
  have l1 := crcStep_lt h
  have n1 := crcStep_ne_zero h0 h
  have l2 := crcStep_lt l1
  have n2 := crcStep_ne_zero n1 l1
  have l3 := crcStep_lt l2
  have n3 := crcStep_ne_zero n2 l2
  have l4 := crcStep_lt l3
  have n4 := crcStep_ne_zero n3 l3
  have l5 := crcStep_lt l4
  have n5 := crcStep_ne_zero n4 l4
  have l6 := crcStep_lt l5
  have n6 := crcStep_ne_zero n5 l5
  have l7 := crcStep_lt l6
  have n7 := crcStep_ne_zero n6 l6
  exact crcStep_ne_zero n7 l7

/-- Iterated byte-steps, used to track how a single-bit difference in the
message propagates through the remaining CRC computation. -/
def crcStep8Iter : Nat → Nat → Nat
  | 0, d => d
  | n + 1, d => crcStep8Iter n (crcStep8 d)

theorem crcStep8Iter_bounds (n : Nat) :
    ∀ d, d ≠ 0 → d < 4294967296 → crcStep8Iter n d ≠ 0 ∧ crcStep8Iter n d < 4294967296 := by
  induction n with
  | zero => intro d h0 h; exact ⟨h0, h⟩
  | succ n ih =>
    intro d h0 h
    exact ih _ (crcStep8_ne_zero h0 h) (crcStep8_lt h)

theorem crcUpdate_xor_left (c d b : Nat) :
    crcUpdate (c ^^^ d) b = crcUpdate c b ^^^ crcStep8 d := by
  unfold crcUpdate
  rw [Nat.xor_assoc, Nat.xor_comm d b, ← Nat.xor_assoc]
  exact crcStep8_xor _ _

theorem crcFold_nil (c : Nat) : crcFold c [] = c := rfl

theorem crcFold_cons (c b : Nat) (bs : List Nat) :
    crcFold c (b :: bs) = crcFold (crcUpdate c b) bs := rfl

theorem crcStep8Iter_succ (n d : Nat) :
    crcStep8Iter (n + 1) d = crcStep8Iter n (crcStep8 d) := rfl

theorem crcFold_xor (bs : List Nat) :
    ∀ c d, crcFold (c ^^^ d) bs = crcFold c bs ^^^ crcStep8Iter bs.length d := by
  induction bs with
  | nil => intro c d; rfl
  | cons b rest ih =>
    intro c d
    rw [crcFold_cons, crcFold_cons, crcUpdate_xor_left, ih, List.length_cons,
      crcStep8Iter_succ]

theorem crcFold_append (xs ys : List Nat) :
    ∀ c, crcFold c (xs ++ ys) = crcFold (crcFold c xs) ys := by
  induction xs with
  | nil => intro c; rfl
  | cons x xs ih =>
    intro c
    rw [List.cons_append, crcFold_cons, crcFold_cons]
    exact ih _

theorem crcFold_lt (bs : List Nat) :
    ∀ c, c < 4294967296 → (∀ b ∈ bs, b < 256) → crcFold c bs < 4294967296 := by
  induction bs with
  | nil => intro c hc _; exact hc
  | cons b rest ih =>
    intro c hc hb
    apply ih
    · apply crcStep8_lt
      have : b < 4294967296 := by
        have := hb b (List.mem_cons_self b rest)
        omega
      exact xor_lt_u32 hc this
    · intro x hx
      exact hb x (List.mem_cons_of_mem _ hx)

theorem calculate_crc_lt (bs : List Nat) (h : ∀ b ∈ bs, b < 256) :
    calculate_crc bs < 4294967296 := by
  unfold calculate_crc
  exact xor_lt_u32 (crcFold_lt bs _ (by norm_num) h) (by norm_num)

/-- A single flipped byte (xor with a nonzero in-range difference) changes the
CRC of a list: the CRC difference is a nonzero iterated step of the byte
difference. -/
theorem calculate_crc_cons_flip (A B : List Nat) (x d : Nat) (hd : d ≠ 0)
    (hdlt : d < 4294967296) :
    calculate_crc (A ++ (x ^^^ d) :: B) ≠ calculate_crc (A ++ x :: B) := by
  unfold calculate_crc
  rw [crcFold_append, crcFold_append, crcFold_cons, crcFold_cons]
  have hu : crcUpdate (crcFold 4294967295 A) (x ^^^ d) =
      crcUpdate (crcFold 4294967295 A) x ^^^ crcStep8 d := by
    unfold crcUpdate
    rw [← Nat.xor_assoc]
    exact crcStep8_xor _ _
  rw [hu, crcFold_xor]
  have hΔ := crcStep8Iter_bounds B.length (crcStep8 d)
    (crcStep8_ne_zero hd hdlt) (crcStep8_lt hdlt)
  rw [Nat.xor_assoc, Nat.xor_comm (crcStep8Iter _ _) 4294967295, ← Nat.xor_assoc]
  exact xor_ne_self hΔ.1

/-- Flipping bit `j` of the byte at index `i` of `p` changes the CRC over
`pre ++ p`. -/
theorem calculate_crc_flip (pre p : List Nat) (i j : Nat) (hi : i < p.length) (hj : j < 8) :
    calculate_crc (pre ++ p.set i (p.getD i 0 ^^^ 2 ^ j)) ≠ calculate_crc (pre ++ p) := by
  have hx : p.getD i 0 = p[i] := by
    simp [List.getD_eq_getElem?_getD, List.getElem?_eq_getElem hi]
  have hset : p.set i (p.getD i 0 ^^^ 2 ^ j) =
      p.take i ++ (p.getD i 0 ^^^ 2 ^ j) :: p.drop (i + 1) :=
    List.set_eq_take_cons_drop _ hi
  have hp : p = p.take i ++ p.getD i 0 :: p.drop (i + 1) := by
    conv_lhs => rw [← List.take_append_drop i p, List.drop_eq_getElem_cons hi]
    rw [hx]
  have hdlt : (2 : Nat) ^ j < 4294967296 := by
    have h1 : (2 : Nat) ^ j ≤ 2 ^ 7 := Nat.pow_le_pow_right (by norm_num) (by omega)
    have h2 : (2 : Nat) ^ 7 = 128 := by norm_num
    omega
  have hdne : (2 : Nat) ^ j ≠ 0 := by positivity
  rw [hset]
  conv_rhs => rw [hp]
  rw [← List.append_assoc, ← List.append_assoc]
  exact calculate_crc_cons_flip (pre ++ p.take i) (p.drop (i + 1)) (p.getD i 0) (2 ^ j)
    hdne hdlt

/-! ### Helper lemmas: chunk parsing -/

theorem read4_cons (a b c d : Nat) (rest : List Nat) :
    read4 (a :: b :: c :: d :: rest) = some ((a, b, c, d), rest) := rfl

theorem read4_eq_some {bs : List Nat} {a b c d : Nat} {rest : List Nat}
    (h : read4 bs = some ((a, b, c, d), rest)) :
    bs = a :: b :: c :: d :: rest := by
  match bs with
  | [] => exact Option.noConfusion h
  | [x] => exact Option.noConfusion h
  | [x, y] => exact Option.noConfusion h
  | [x, y, z] => exact Option.noConfusion h
  | x :: y :: z :: w :: r =>
    rw [read4_cons] at h
    simp only [Option.some.injEq, Prod.mk.injEq] at h
    obtain ⟨⟨h1, h2, h3, h4⟩, h5⟩ := h
    rw [h1, h2, h3, h4, h5]

theorem read4_short {bs : List Nat} (h : bs.length < 4) : read4 bs = none := by
  match bs with
  | [] => rfl
  | [x] => rfl
  | [x, y] => rfl
  | [x, y, z] => rfl
  | x :: y :: z :: w :: r =>
    simp only [List.length_cons] at h
    exact absurd h (by omega)

theorem readExact_append (P R : List Nat) : readExact P.length (P ++ R) = some (P, R) := by
  unfold readExact
  rw [if_pos (by simp), List.take_left, List.drop_left]

theorem readExact_eq_some {n : Nat} {s buf rest : List Nat}
    (h : readExact n s = some (buf, rest)) :
    s = buf ++ rest ∧ buf.length = n := by
  unfold readExact at h
  split at h
  · simp only [Option.some.injEq, Prod.mk.injEq] at h
    obtain ⟨h1, h2⟩ := h
    rw [← h1, ← h2]
    constructor
    · exact (List.take_append_drop n s).symm
    · simp only [List.length_take]
      omega
  · exact Option.noConfusion h

theorem readExact_short {n : Nat} {s : List Nat} (h : s.length < n) :
    readExact n s = none := by
  unfold readExact
  rw [if_neg (by omega)]

theorem tryFromBytes_of_valid {a b c d : Nat}
    (h : ChunkType.is_valid ⟨a, b, c, d⟩ = .ok ()) :
    ChunkType.tryFromBytes a b c d = .ok ⟨a, b, c, d⟩ := by
  simp only [ChunkType.tryFromBytes, h]

theorem tryFromBytes_of_error {a b c d : Nat} {e : TypeError}
    (h : ChunkType.is_valid ⟨a, b, c, d⟩ = .error e) :
    ChunkType.tryFromBytes a b c d = .error e := by
  simp only [ChunkType.tryFromBytes, h]

theorem tryFromBytes_ok {a b c d : Nat} {u : ChunkType}
    (h : ChunkType.tryFromBytes a b c d = .ok u) :
    u = ⟨a, b, c, d⟩ ∧ ChunkType.is_valid ⟨a, b, c, d⟩ = .ok () := by
  simp only [ChunkType.tryFromBytes] at h
  split at h
  · exact Except.noConfusion h
  · next v hv =>
    simp only [Except.ok.injEq] at h
    cases v
    exact ⟨h.symm, hv⟩

/-- Evaluating the chunk parser on input laid out as
length bytes, type bytes, a payload whose size matches the length field,
4 checksum bytes, and an arbitrary unread tail. -/
theorem chunkTryFrom_concat (l0 l1 l2 l3 t0 t1 t2 t3 c0 c1 c2 c3 : Nat)
    (P suf : List Nat) (hP : P.length = u32FromBe l0 l1 l2 l3) :
    chunkTryFrom (l0 :: l1 :: l2 :: l3 :: t0 :: t1 :: t2 :: t3 ::
        (P ++ c0 :: c1 :: c2 :: c3 :: suf)) =
      match ChunkType.tryFromBytes t0 t1 t2 t3 with
      | .error e => .error (.typeNotValid e)
      | .ok ct =>
        if u32FromBe c0 c1 c2 c3 = calculate_crc ([t0, t1, t2, t3] ++ P) then
          .ok { length := u32FromBe l0 l1 l2 l3, chunk_type := ct, chunk_data := P,
                crc := u32FromBe c0 c1 c2 c3 }
        else
          .error (.crcMismatch (u32FromBe c0 c1 c2 c3)
            (calculate_crc ([t0, t1, t2, t3] ++ P))) := by
  simp only [chunkTryFrom, read4_cons]
  cases htf : ChunkType.tryFromBytes t0 t1 t2 t3 with
  | error e => rfl
  | ok ct =>
    simp only [← hP, readExact_append, read4_cons]

/-- Inversion: a successful parse decomposes the input into header, type,
payload, checksum bytes and an ignored tail, and constrains every field of
the resulting chunk. -/
theorem chunkTryFrom_ok_decomp {bs : List Nat} {c : Chunk}
    (h : chunkTryFrom bs = .ok c) :
    ∃ l0 l1 l2 l3 t0 t1 t2 t3 c0 c1 c2 c3 suf,
      bs = l0 :: l1 :: l2 :: l3 :: t0 :: t1 :: t2 :: t3 ::
        (c.chunk_data ++ c0 :: c1 :: c2 :: c3 :: suf) ∧
      c.length = u32FromBe l0 l1 l2 l3 ∧
      c.chunk_data.length = c.length ∧
      c.chunk_type = ⟨t0, t1, t2, t3⟩ ∧
      ChunkType.is_valid c.chunk_type = .ok () ∧
      c.crc = u32FromBe c0 c1 c2 c3 ∧
      c.crc = calculate_crc (c.chunk_type.bytes ++ c.chunk_data) := by
  simp only [chunkTryFrom] at h
  split at h
  · exact Except.noConfusion h
  next l0 l1 l2 l3 s1 hr1 =>
  split at h
  · exact Except.noConfusion h
  next t0 t1 t2 t3 s2 hr2 =>
  split at h
  · exact Except.noConfusion h
  next ct htf =>
  split at h
  · exact Except.noConfusion h
  next dataBuf s3 hre =>
  split at h
  · exact Except.noConfusion h
  next c0 c1 c2 c3 s4 hr4 =>
  split at h
  · next hcrc =>
    simp only [Except.ok.injEq] at h
    obtain ⟨hct, hval⟩ := tryFromBytes_ok htf
    obtain ⟨hs2, hlen⟩ := readExact_eq_some hre
    refine ⟨l0, l1, l2, l3, t0, t1, t2, t3, c0, c1, c2, c3, s4, ?_, ?_, ?_, ?_, ?_, ?_, ?_⟩
    · rw [read4_eq_some hr1, read4_eq_some hr2, hs2, read4_eq_some hr4, ← h]
    · rw [← h]
    · rw [← h, hlen]
    · rw [← h, hct]
    · rw [← h, hct]
      exact hval
    · rw [← h]
    · rw [← h, hcrc, hct]
      rfl
  · exact Except.noConfusion h

/-- Any chunk whose fields satisfy the parser's invariants reparses from its
own serialization to itself. -/
theorem chunkTryFrom_as_bytes (c : Chunk)
    (h1 : c.length < 4294967296)
    (h2 : c.chunk_data.length = c.length)
    (h3 : ChunkType.is_valid c.chunk_type = .ok ())
    (h4 : c.crc = calculate_crc (c.chunk_type.bytes ++ c.chunk_data))
    (h5 : c.crc < 4294967296) :
    chunkTryFrom c.as_bytes = .ok c := by
  obtain ⟨clen, ct, cdata, ccrc⟩ := c
  obtain ⟨b0, b1, b2, b3⟩ := ct
  simp only at h1 h2 h3 h4 h5
  have hshape : Chunk.as_bytes ⟨clen, ⟨b0, b1, b2, b3⟩, cdata, ccrc⟩ =
      clen / 16777216 % 256 :: clen / 65536 % 256 :: clen / 256 % 256 :: clen % 256 ::
      b0 :: b1 :: b2 :: b3 ::
      (cdata ++ ccrc / 16777216 % 256 :: ccrc / 65536 % 256 :: ccrc / 256 % 256 ::
        ccrc % 256 :: []) := by
    simp [Chunk.as_bytes, u32BeBytes, ChunkType.bytes]
  rw [hshape,
    chunkTryFrom_concat _ _ _ _ _ _ _ _ _ _ _ _ _ _
      (by rw [h2]; exact (u32FromBe_u32BeBytes clen h1).symm)]
  have hty : ChunkType.tryFromBytes b0 b1 b2 b3 = .ok ⟨b0, b1, b2, b3⟩ :=
    tryFromBytes_of_valid h3
  simp only [hty]
  rw [if_pos]
  · rw [u32FromBe_u32BeBytes clen h1, u32FromBe_u32BeBytes ccrc h5]
  · rw [u32FromBe_u32BeBytes ccrc h5, h4]
    rfl

/-! ### Helper lemmas: `is_valid` branch behaviour -/

theorem is_valid_of_char {t : ChunkType} {cc ii : Nat}
    (hv : validate_chars t.bytes = some (cc, ii)) :
    t.is_valid = .error (.invalidCharacter t.str cc ii) := by
  unfold ChunkType.is_valid
  rw [hv]

theorem is_valid_of_none_reserved {t : ChunkType} (hv : validate_chars t.bytes = none)
    (hr : t.is_reserved_bit_valid = true) : t.is_valid = .ok () := by
  unfold ChunkType.is_valid
  rw [hv]
  simp [ChunkType.is_length_valid, ChunkType.bytes, hr]

theorem is_valid_of_none_lower {t : ChunkType} (hv : validate_chars t.bytes = none)
    (hr : t.is_reserved_bit_valid = false) :
    t.is_valid = .error (.reservedBitInvalid t.str) := by
  unfold ChunkType.is_valid
  rw [hv]
  simp [ChunkType.is_length_valid, ChunkType.bytes, hr]

theorem is_valid_ok_iff (t : ChunkType) :
    t.is_valid = .ok () ↔
      (∀ b ∈ t.bytes, isAsciiLetter b = true) ∧ t.is_reserved_bit_valid = true := by
  constructor
  · intro h
    cases hv : validate_chars t.bytes with
    | some ci =>
      obtain ⟨cc, ii⟩ := ci
      rw [is_valid_of_char hv] at h
      exact Except.noConfusion h
    | none =>
      refine ⟨(validate_chars_none _).mp hv, ?_⟩
      cases hr : t.is_reserved_bit_valid with
      | true => rfl
      | false =>
        rw [is_valid_of_none_lower hv hr] at h
        exact Except.noConfusion h
  · rintro ⟨hl, hr⟩
    exact is_valid_of_none_reserved ((validate_chars_none _).mpr hl) hr

theorem reserved_iff_upper {t : ChunkType} (h : isAsciiLetter t.b2 = true) :
    t.is_reserved_bit_valid = true ↔ isAsciiUppercase t.b2 = true := by
  unfold ChunkType.is_reserved_bit_valid
  rw [beq_iff_eq, and32_eq_zero_iff]
  simp only [isAsciiLetter, Bool.or_eq_true] at h
  rcases h with hl | hu
  · rw [testBit5_of_lower hl]
    constructor
    · intro hx; exact Bool.noConfusion hx
    · intro hx
      exfalso
      simp only [isAsciiUppercase, Bool.and_eq_true, decide_eq_true_eq] at hx
      simp only [isAsciiLowercase, Bool.and_eq_true, decide_eq_true_eq] at hl
      omega
  · rw [testBit5_of_upper hu]
    simp [hu]

theorem letter_lt {b : Nat} (h : isAsciiLetter b = true) : b < 256 := by
  simp only [isAsciiLetter, isAsciiLowercase, isAsciiUppercase, Bool.or_eq_true,
    Bool.and_eq_true, decide_eq_true_eq] at h
  omega

/-! ### Claims about the ChunkType codec -/

/-- C4 counterexample: the byte-array constructor is not unconditional — it
rejects the all-letter input [82,117,115,116] ("Rust", lowercase third byte)
with a reserved-bit error. -/
theorem C4_counterexample :
    ChunkType.tryFromBytes 82 117 115 116 =
      .error (.reservedBitInvalid (ChunkType.str ⟨82, 117, 115, 116⟩)) := by
  decide

/-- C4 (amended): constructing a ChunkType from a 4-byte array runs the full
`is_valid` check: it succeeds, storing the bytes as-is, exactly when all four
bytes are ASCII letters and the reserved bit of byte 2 is valid; otherwise it
propagates the `is_valid` error. -/
theorem C4_tryFromBytes (a b c d : Nat) :
    (ChunkType.tryFromBytes a b c d = .ok ⟨a, b, c, d⟩ ↔
      (∀ x ∈ ([a, b, c, d] : List Nat), isAsciiLetter x = true) ∧
        (ChunkType.mk a b c d).is_reserved_bit_valid = true) ∧
    (∀ e, ChunkType.tryFromBytes a b c d = .error e →
      ChunkType.is_valid ⟨a, b, c, d⟩ = .error e) := by
  constructor
  · constructor
    · intro h
      exact (is_valid_ok_iff ⟨a, b, c, d⟩).mp (tryFromBytes_ok h).2
    · intro h
      exact tryFromBytes_of_valid ((is_valid_ok_iff ⟨a, b, c, d⟩).mpr h)
  · intro e he
    cases hv : ChunkType.is_valid ⟨a, b, c, d⟩ with
    | error e2 =>
      rw [tryFromBytes_of_error hv] at he
      simp only [Except.error.injEq] at he
      rw [← he]
    | ok v =>
      cases v
      rw [tryFromBytes_of_valid hv] at he
      exact Except.noConfusion he

/-- C4 witness: the amended theorem applied at the concrete rejected input
0,0,0,0. -/
theorem C4_witness :
    ChunkType.is_valid ⟨0, 0, 0, 0⟩ =
      .error (.invalidCharacter (ChunkType.str ⟨0, 0, 0, 0⟩) 0 0) :=
  (C4_tryFromBytes 0 0 0 0).2 _ (by decide)

/-- C5: `is_valid` succeeds iff all four bytes are ASCII letters and byte 2
is uppercase; all-letter inputs with lowercase byte 2 fail with the
reserved-bit error; inputs with a non-letter byte fail with the
invalid-character error for the first offending byte. -/
theorem C5_is_valid (t : ChunkType) :
    (t.is_valid = .ok () ↔
      ((∀ b ∈ t.bytes, isAsciiLetter b = true) ∧ isAsciiUppercase t.b2 = true)) ∧
    ((∀ b ∈ t.bytes, isAsciiLetter b = true) → isAsciiLowercase t.b2 = true →
      t.is_valid = .error (.reservedBitInvalid t.str)) ∧
    (∀ cc ii, ii < t.bytes.length → t.bytes.getD ii 0 = cc → isAsciiLetter cc = false →
      (∀ m, m < ii → isAsciiLetter (t.bytes.getD m 0) = true) →
      t.is_valid = .error (.invalidCharacter t.str cc ii)) := by
  have hb2mem : t.b2 ∈ t.bytes := by simp [ChunkType.bytes]
  refine ⟨?_, ?_, ?_⟩
  · rw [is_valid_ok_iff]
    constructor
    · rintro ⟨hl, hr⟩
      exact ⟨hl, (reserved_iff_upper (hl t.b2 hb2mem)).mp hr⟩
    · rintro ⟨hl, hu⟩
      exact ⟨hl, (reserved_iff_upper (hl t.b2 hb2mem)).mpr hu⟩
  · intro hl hlow
    apply is_valid_of_none_lower ((validate_chars_none _).mpr hl)
    cases hr : t.is_reserved_bit_valid with
    | false => rfl
    | true =>
      exfalso
      have hu := (reserved_iff_upper (hl t.b2 hb2mem)).mp hr
      simp only [isAsciiUppercase, Bool.and_eq_true, decide_eq_true_eq] at hu
      simp only [isAsciiLowercase, Bool.and_eq_true, decide_eq_true_eq] at hlow
      omega
  · intro cc ii h1 h2 h3 h4
    exact is_valid_of_char (validate_chars_first t.bytes ii cc h1 h2 h3 h4)

/-- C5 witness: the three behaviours at "RuSt", "Rust" and "Ru1t". -/
theorem C5_witness :
    (ChunkType.mk 82 117 83 116).is_valid = .ok () ∧
    (ChunkType.mk 82 117 115 116).is_valid =
      .error (.reservedBitInvalid (ChunkType.str ⟨82, 117, 115, 116⟩)) ∧
    (ChunkType.mk 82 117 49 116).is_valid =
      .error (.invalidCharacter (ChunkType.str ⟨82, 117, 49, 116⟩) 49 2) :=
  ⟨((C5_is_valid ⟨82, 117, 83, 116⟩).1).mpr ⟨by decide, by decide⟩,
   (C5_is_valid ⟨82, 117, 115, 116⟩).2.1 (by decide) (by decide),
   (C5_is_valid ⟨82, 117, 49, 116⟩).2.2 49 2 (by decide) (by decide) (by decide)
     (by decide)⟩

theorem from_str_char {bs : List Nat} {cc ii : Nat}
    (hv : validate_chars bs = some (cc, ii)) :
    ChunkType.from_str bs = .error (.invalidCharacter (strOfBytes bs) cc ii) := by
  unfold ChunkType.from_str
  rw [hv]

theorem from_str_ok {a b c d : Nat} (hv : validate_chars [a, b, c, d] = none) :
    ChunkType.from_str [a, b, c, d] = .ok ⟨a, b, c, d⟩ := by
  unfold ChunkType.from_str
  rw [hv]

theorem from_str_not4 {bs : List Nat} (hlen : bs.length ≠ 4)
    (hv : validate_chars bs = none) :
    ChunkType.from_str bs = .error (.invalidLength (strOfBytes bs)) := by
  unfold ChunkType.from_str
  rw [hv]
  rcases bs with _ | ⟨a, _ | ⟨b, _ | ⟨c, _ | ⟨d, _ | ⟨e, r⟩⟩⟩⟩⟩
  · rfl
  · rfl
  · rfl
  · rfl
  · exact absurd (by simp) hlen
  · rfl

/-- Recognizer for invalid-length results, used to state a counterexample. -/
def isInvalidLengthErr : Except TypeError ChunkType → Bool
  | .error (.invalidLength _) => true
  | _ => false

/-- C6 counterexample: the 3-byte input "Ru1" is not exactly 4 bytes, yet
text construction reports the invalid character at position 2, not an
invalid-length error — the character check runs first. -/
theorem C6_counterexample :
    ChunkType.from_str [82, 117, 49] =
      .error (.invalidCharacter (strOfBytes [82, 117, 49]) 49 2) ∧
    isInvalidLengthErr (ChunkType.from_str [82, 117, 49]) = false := by
  exact ⟨by decide, by decide⟩

/-- C6 (amended): text construction checks characters before length: a
non-letter byte yields the invalid-character error with the first offending
byte and its zero-based position (whatever the length); the invalid-length
error arises exactly on all-letter inputs whose length is not 4; 4-letter
inputs succeed with the bytes stored as-is. -/
theorem C6_from_str (bs : List Nat) :
    ((∀ b ∈ bs, isAsciiLetter b = true) → bs.length ≠ 4 →
      ChunkType.from_str bs = .error (.invalidLength (strOfBytes bs))) ∧
    (∀ cc ii, ii < bs.length → bs.getD ii 0 = cc → isAsciiLetter cc = false →
      (∀ m, m < ii → isAsciiLetter (bs.getD m 0) = true) →
      ChunkType.from_str bs = .error (.invalidCharacter (strOfBytes bs) cc ii)) ∧
    (∀ a b c d, bs = [a, b, c, d] → (∀ x ∈ bs, isAsciiLetter x = true) →
      ChunkType.from_str bs = .ok ⟨a, b, c, d⟩) := by
  refine ⟨?_, ?_, ?_⟩
  · intro hl hlen
    exact from_str_not4 hlen ((validate_chars_none bs).mpr hl)
  · intro cc ii h1 h2 h3 h4
    exact from_str_char (validate_chars_first bs ii cc h1 h2 h3 h4)
  · rintro a b c d rfl hl
    exact from_str_ok ((validate_chars_none _).mpr hl)

/-- C6 witness: "Ru1t" fails at position 2, "Ru" fails with invalid length,
"ruSt" succeeds. -/
theorem C6_witness :
    ChunkType.from_str [82, 117, 49, 116] =
      .error (.invalidCharacter (strOfBytes [82, 117, 49, 116]) 49 2) ∧
    ChunkType.from_str [82, 117] = .error (.invalidLength (strOfBytes [82, 117])) ∧
    ChunkType.from_str [114, 117, 83, 116] = .ok ⟨114, 117, 83, 116⟩ :=
  ⟨(C6_from_str [82, 117, 49, 116]).2.1 49 2 (by decide) (by decide) (by decide)
      (by decide),
   (C6_from_str [82, 117]).1 (by decide) (by decide),
   (C6_from_str [114, 117, 83, 116]).2.2 114 117 83 116 rfl (by decide)⟩

theorem beq32_zero_iff_testBit (x : Nat) :
    ((x &&& 32 == 0) = true) ↔ x.testBit 5 = false := by
  rw [beq_iff_eq]
  exact and32_eq_zero_iff x

/-- C7: the four property predicates are pure tests of bit 5 (0x20) of the
respective stored byte, and the type parsed from "RuSt" reports
critical, not public, reserved-bit valid, and safe to copy. -/
theorem C7_predicates (t : ChunkType) :
    (t.is_critical = true ↔ t.b0.testBit 5 = false) ∧
    (t.is_public = true ↔ t.b1.testBit 5 = false) ∧
    (t.is_reserved_bit_valid = true ↔ t.b2.testBit 5 = false) ∧
    (t.is_safe_to_copy = true ↔ t.b3.testBit 5 = true) ∧
    (ChunkType.from_str [82, 117, 83, 116] = .ok ⟨82, 117, 83, 116⟩ ∧
      (ChunkType.mk 82 117 83 116).is_critical = true ∧
      (ChunkType.mk 82 117 83 116).is_public = false ∧
      (ChunkType.mk 82 117 83 116).is_reserved_bit_valid = true ∧
      (ChunkType.mk 82 117 83 116).is_safe_to_copy = true) := by
  refine ⟨beq32_zero_iff_testBit t.b0, beq32_zero_iff_testBit t.b1,
    beq32_zero_iff_testBit t.b2, ?_, by decide⟩
  unfold ChunkType.is_safe_to_copy
  rw [decide_eq_true_iff]
  constructor
  · intro h
    cases hb : t.b3.testBit 5 with
    | true => rfl
    | false => exact absurd ((and32_eq_zero_iff _).mpr hb) (by omega)
  · intro h
    rcases Nat.eq_zero_or_pos (t.b3 &&& 32) with h0 | h0
    · rw [(and32_eq_zero_iff _).mp h0] at h
      exact Bool.noConfusion h
    · exact h0

/-- C8: the hidden-message suitability check passes exactly when the type is
valid, ancillary, private and safe to copy; each violated condition yields
its own distinct error. -/
theorem C8_suitability (t : ChunkType) :
    (t.is_valid_for_message = .ok () ↔
      (t.is_valid = .ok () ∧ t.is_critical = false ∧ t.is_public = false ∧
        t.is_safe_to_copy = true)) ∧
    (t.is_valid = .ok () → t.is_critical = true →
      t.is_valid_for_message = .error (.chunkCritical t.str)) ∧
    (t.is_valid = .ok () → t.is_critical = false → t.is_public = true →
      t.is_valid_for_message = .error (.chunkPublic t.str)) ∧
    (t.is_valid = .ok () → t.is_critical = false → t.is_public = false →
      t.is_safe_to_copy = false →
      t.is_valid_for_message = .error (.notSafeToCopy t.str)) ∧
    (∀ e, t.is_valid = .error e → t.is_valid_for_message = .error (.notValid e)) ∧
    (∀ s1 s2 s3 : String, MsgError.chunkCritical s1 ≠ MsgError.chunkPublic s2 ∧
      MsgError.chunkCritical s1 ≠ MsgError.notSafeToCopy s3 ∧
      MsgError.chunkPublic s2 ≠ MsgError.notSafeToCopy s3) := by
  refine ⟨?_, ?_, ?_, ?_, ?_, ?_⟩
  · constructor
    · intro h
      cases hv : t.is_valid with
      | error e =>
        simp only [ChunkType.is_valid_for_message, hv] at h
        exact Except.noConfusion h
      | ok v =>
        cases v
        simp only [ChunkType.is_valid_for_message, hv] at h
        refine ⟨rfl, ?_, ?_, ?_⟩
        · cases hc : t.is_critical with
          | false => rfl
          | true => simp [hc] at h
        · cases hp : t.is_public with
          | false => rfl
          | true =>
            cases hc : t.is_critical with
            | false => simp [hc, hp] at h
            | true => simp [hc] at h
        · cases hs : t.is_safe_to_copy with
          | true => rfl
          | false =>
            cases hc : t.is_critical with
            | true => simp [hc] at h
            | false =>
              cases hp : t.is_public with
              | true => simp [hc, hp] at h
              | false => simp [hc, hp, hs] at h
    · rintro ⟨hv, hc, hp, hs⟩
      simp [ChunkType.is_valid_for_message, hv, hc, hp, hs]
  · intro hv hc
    simp [ChunkType.is_valid_for_message, hv, hc]
  · intro hv hc hp
    simp [ChunkType.is_valid_for_message, hv, hc, hp]
  · intro hv hc hp hs
    simp [ChunkType.is_valid_for_message, hv, hc, hp, hs]
  · intro e hv
    simp [ChunkType.is_valid_for_message, hv]
  · intro s1 s2 s3
    exact ⟨by simp, by simp, by simp⟩

/-- C8 witness: "ruSt" passes; "RuSt" fails as critical; "ruST" fails as
unsafe to copy. -/
theorem C8_witness :
    (ChunkType.mk 114 117 83 116).is_valid_for_message = .ok () ∧
    (ChunkType.mk 82 117 83 116).is_valid_for_message =
      .error (.chunkCritical (ChunkType.str ⟨82, 117, 83, 116⟩)) ∧
    (ChunkType.mk 114 117 83 84).is_valid_for_message =
      .error (.notSafeToCopy (ChunkType.str ⟨114, 117, 83, 84⟩)) :=
  ⟨((C8_suitability ⟨114, 117, 83, 116⟩).1).mpr
      ⟨by decide, by decide, by decide, by decide⟩,
   (C8_suitability ⟨82, 117, 83, 116⟩).2.1 (by decide) (by decide),
   (C8_suitability ⟨114, 117, 83, 84⟩).2.2.2.1 (by decide) (by decide) (by decide)
     (by decide)⟩

/-! ### Claims about the Chunk codec -/

/-- The byte view of "This is where your secret message will be!", the payload
used by the repository's tests. -/
def secretMsg : List Nat :=
  [84, 104, 105, 115, 32, 105, 115, 32, 119, 104, 101, 114, 101, 32, 121, 111,
   117, 114, 32, 115, 101, 99, 114, 101, 116, 32, 109, 101, 115, 115, 97, 103,
   101, 32, 119, 105, 108, 108, 32, 98, 101, 33]

theorem chunk_new_length (t : ChunkType) (p : List Nat) :
    (Chunk.new t p).length = p.length % 4294967296 := rfl

/-- C3 counterexample: `Chunk::new` casts the payload length to u32, so for a
payload of 2^32 zero bytes the stored length (0) differs from the byte count
of the payload. -/
theorem C3_counterexample :
    (Chunk.new ⟨82, 117, 83, 116⟩ (List.replicate 4294967296 0)).length ≠
      (List.replicate 4294967296 0).length := by
  rw [chunk_new_length, List.length_replicate]
  norm_num

set_option maxRecDepth 100000 in
/-- C3 (amended): `Chunk::new` always succeeds; its stored length equals the
payload byte count whenever that count fits in u32 (in general it is the count
mod 2^32), and its checksum is the CRC-32 ISO-HDLC of the type bytes followed
by the payload; on type "RuSt" and the test payload this gives length 42 and
checksum 2882656334. -/
theorem C3_construct (t : ChunkType) (p : List Nat) (h : p.length < 4294967296) :
    (Chunk.new t p).length = p.length ∧
    (Chunk.new t p).crc = calculate_crc (t.bytes ++ p) ∧
    (Chunk.new ⟨82, 117, 83, 116⟩ secretMsg).length = 42 ∧
    (Chunk.new ⟨82, 117, 83, 116⟩ secretMsg).crc = 2882656334 := by
  refine ⟨?_, rfl, rfl, rfl⟩
  simp only [Chunk.new]
  omega

/-- C3 witness: the amended theorem applied to "RuSt" and the test payload. -/
theorem C3_witness :
    (Chunk.new ⟨82, 117, 83, 116⟩ secretMsg).length = secretMsg.length ∧
    (Chunk.new ⟨82, 117, 83, 116⟩ secretMsg).crc =
      calculate_crc ((ChunkType.mk 82 117 83 116).bytes ++ secretMsg) ∧
    (Chunk.new ⟨82, 117, 83, 116⟩ secretMsg).length = 42 ∧
    (Chunk.new ⟨82, 117, 83, 116⟩ secretMsg).crc = 2882656334 :=
  C3_construct ⟨82, 117, 83, 116⟩ secretMsg (by decide)

/-- C2: the chunk parser reads a 4-byte big-endian length, a 4-byte type that
must pass the validity check, exactly `length` payload bytes and a 4-byte
big-endian checksum, in order; each underrun fails with the matching
end-of-input error; a stored checksum that differs from the CRC-32 recomputed
over type bytes followed by payload fails with a mismatch error carrying the
received and expected values, and no chunk is produced. -/
theorem C2_parse (l0 l1 l2 l3 t0 t1 t2 t3 c0 c1 c2 c3 : Nat) (P suf : List Nat)
    (hP : P.length = u32FromBe l0 l1 l2 l3) :
    (∀ sh : List Nat, sh.length < 4 → chunkTryFrom sh = .error .readLength) ∧
    (∀ sh : List Nat, sh.length < 4 →
      chunkTryFrom (l0 :: l1 :: l2 :: l3 :: sh) = .error .readType) ∧
    (∀ e, ChunkType.tryFromBytes t0 t1 t2 t3 = .error e →
      chunkTryFrom (l0 :: l1 :: l2 :: l3 :: t0 :: t1 :: t2 :: t3 ::
        (P ++ c0 :: c1 :: c2 :: c3 :: suf)) = .error (.typeNotValid e)) ∧
    (∀ sh : List Nat, sh.length < u32FromBe l0 l1 l2 l3 →
      (∃ u, ChunkType.tryFromBytes t0 t1 t2 t3 = .ok u) →
      chunkTryFrom (l0 :: l1 :: l2 :: l3 :: t0 :: t1 :: t2 :: t3 :: sh) =
        .error .readData) ∧
    (∀ sh : List Nat, sh.length < 4 →
      (∃ u, ChunkType.tryFromBytes t0 t1 t2 t3 = .ok u) →
      chunkTryFrom (l0 :: l1 :: l2 :: l3 :: t0 :: t1 :: t2 :: t3 :: (P ++ sh)) =
        .error .readCrc) ∧
    (∀ u, ChunkType.tryFromBytes t0 t1 t2 t3 = .ok u →
      u32FromBe c0 c1 c2 c3 ≠ calculate_crc ([t0, t1, t2, t3] ++ P) →
      chunkTryFrom (l0 :: l1 :: l2 :: l3 :: t0 :: t1 :: t2 :: t3 ::
        (P ++ c0 :: c1 :: c2 :: c3 :: suf)) =
        .error (.crcMismatch (u32FromBe c0 c1 c2 c3)
          (calculate_crc ([t0, t1, t2, t3] ++ P)))) ∧
    (∀ u, ChunkType.tryFromBytes t0 t1 t2 t3 = .ok u →
      u32FromBe c0 c1 c2 c3 = calculate_crc ([t0, t1, t2, t3] ++ P) →
      chunkTryFrom (l0 :: l1 :: l2 :: l3 :: t0 :: t1 :: t2 :: t3 ::
        (P ++ c0 :: c1 :: c2 :: c3 :: suf)) =
        .ok ⟨u32FromBe l0 l1 l2 l3, u, P, u32FromBe c0 c1 c2 c3⟩) := by
  refine ⟨?_, ?_, ?_, ?_, ?_, ?_, ?_⟩
  · intro sh hsh
    simp only [chunkTryFrom, read4_short hsh]
  · intro sh hsh
    simp only [chunkTryFrom, read4_cons, read4_short hsh]
  · intro e he
    rw [chunkTryFrom_concat _ _ _ _ _ _ _ _ _ _ _ _ _ _ hP]
    simp only [he]
  · rintro sh hsh ⟨u, hu⟩
    simp only [chunkTryFrom, read4_cons, hu, readExact_short hsh]
  · rintro sh hsh ⟨u, hu⟩
    simp only [chunkTryFrom, read4_cons, hu, ← hP, readExact_append, read4_short hsh]
  · intro u hu hne
    rw [chunkTryFrom_concat _ _ _ _ _ _ _ _ _ _ _ _ _ _ hP]
    simp only [hu, if_neg hne]
  · intro u hu heq
    rw [chunkTryFrom_concat _ _ _ _ _ _ _ _ _ _ _ _ _ _ hP]
    simp only [hu, if_pos heq]

/-- C2 witness: each parse outcome exercised on concrete byte vectors built
around the valid type "ruSt" and the invalid type "Rust". -/
theorem C2_witness :
    chunkTryFrom [9] = .error .readLength ∧
    chunkTryFrom (0 :: 0 :: 0 :: 0 :: [7]) = .error .readType ∧
    chunkTryFrom (0 :: 0 :: 0 :: 0 :: 82 :: 117 :: 115 :: 116 ::
      ([] ++ 0 :: 0 :: 0 :: 0 :: [])) =
      .error (.typeNotValid (.reservedBitInvalid (ChunkType.str ⟨82, 117, 115, 116⟩))) ∧
    chunkTryFrom (0 :: 0 :: 0 :: 1 :: 114 :: 117 :: 83 :: 116 :: []) =
      .error .readData ∧
    chunkTryFrom (0 :: 0 :: 0 :: 0 :: 114 :: 117 :: 83 :: 116 :: ([] ++ [0, 0, 0])) =
      .error .readCrc ∧
    chunkTryFrom (0 :: 0 :: 0 :: 0 :: 114 :: 117 :: 83 :: 116 ::
      ([] ++ 0 :: 0 :: 0 :: 0 :: [])) =
      .error (.crcMismatch (u32FromBe 0 0 0 0)
        (calculate_crc ([114, 117, 83, 116] ++ []))) ∧
    chunkTryFrom (0 :: 0 :: 0 :: 0 :: 114 :: 117 :: 83 :: 116 ::
      ([] ++ 116 :: 182 :: 166 :: 2 :: [])) =
      .ok ⟨u32FromBe 0 0 0 0, ⟨114, 117, 83, 116⟩, [], u32FromBe 116 182 166 2⟩ :=
  ⟨(C2_parse 0 0 0 0 114 117 83 116 0 0 0 0 [] [] rfl).1 [9] (by decide),
   (C2_parse 0 0 0 0 114 117 83 116 0 0 0 0 [] [] rfl).2.1 [7] (by decide),
   (C2_parse 0 0 0 0 82 117 115 116 0 0 0 0 [] [] rfl).2.2.1 _ (by decide),
   (C2_parse 0 0 0 1 114 117 83 116 0 0 0 0 [0] [] rfl).2.2.2.1 [] (by decide)
     ⟨⟨114, 117, 83, 116⟩, by decide⟩,
   (C2_parse 0 0 0 0 114 117 83 116 0 0 0 0 [] [] rfl).2.2.2.2.1 [0, 0, 0]
     (by decide) ⟨⟨114, 117, 83, 116⟩, by decide⟩,
   (C2_parse 0 0 0 0 114 117 83 116 0 0 0 0 [] [] rfl).2.2.2.2.2.1
     ⟨114, 117, 83, 116⟩ (by decide) (by decide),
   (C2_parse 0 0 0 0 114 117 83 116 116 182 166 2 [] [] rfl).2.2.2.2.2.2
     ⟨114, 117, 83, 116⟩ (by decide) (by decide)⟩

theorem bytes_lt_of_valid {t : ChunkType} (h : ChunkType.is_valid t = .ok ()) :
    ∀ b ∈ t.bytes, b < 256 := by
  intro b hb
  exact letter_lt (((is_valid_ok_iff t).mp h).1 b hb)

theorem chunk_new_crc (t : ChunkType) (p : List Nat) :
    (Chunk.new t p).crc = calculate_crc (t.bytes ++ p) := rfl

/-- C1 counterexample: `FromStr` accepts the reserved-bit-invalid type "Rust",
and a Chunk built from it by `Chunk::new` does not reparse at all — the type
validation inside the parser rejects its own serialization. -/
theorem C1_counterexample :
    ChunkType.from_str [82, 117, 115, 116] = .ok ⟨82, 117, 115, 116⟩ ∧
    chunkTryFrom (Chunk.new ⟨82, 117, 115, 116⟩ []).as_bytes =
      .error (.typeNotValid (.reservedBitInvalid (ChunkType.str ⟨82, 117, 115, 116⟩))) := by
  exact ⟨by decide, by decide⟩

/-- C1 (amended): serialization is inverted by parsing for every chunk a
successful parse produces, and for every constructed chunk whose type passes
`is_valid` and whose payload is a byte sequence of fewer than 2^32 bytes. -/
theorem C1_roundtrip :
    (∀ (bs : List Nat) (c : Chunk), (∀ b ∈ bs, b < 256) → chunkTryFrom bs = .ok c →
      chunkTryFrom c.as_bytes = .ok c) ∧
    (∀ (t : ChunkType) (p : List Nat), ChunkType.is_valid t = .ok () →
      (∀ b ∈ p, b < 256) → p.length < 4294967296 →
      chunkTryFrom (Chunk.new t p).as_bytes = .ok (Chunk.new t p)) := by
  constructor
  · intro bs c h256 h
    obtain ⟨l0, l1, l2, l3, t0, t1, t2, t3, c0, c1, c2, c3, suf, hbs, hlen, hdl,
      hct, hval, hcrc, hcrc2⟩ := chunkTryFrom_ok_decomp h
    subst hbs
    apply chunkTryFrom_as_bytes
    · rw [hlen]
      exact u32FromBe_lt (h256 _ (by simp)) (h256 _ (by simp)) (h256 _ (by simp))
        (h256 _ (by simp))
    · exact hdl
    · exact hval
    · exact hcrc2
    · rw [hcrc]
      exact u32FromBe_lt (h256 _ (by simp)) (h256 _ (by simp)) (h256 _ (by simp))
        (h256 _ (by simp))
  · intro t p hv hp hlen
    apply chunkTryFrom_as_bytes
    · rw [chunk_new_length]
      omega
    · show p.length = (Chunk.new t p).length
      rw [chunk_new_length]
      omega
    · exact hv
    · rfl
    · rw [chunk_new_crc]
      apply calculate_crc_lt
      intro b hb
      rcases List.mem_append.mp hb with h1 | h1
      · exact bytes_lt_of_valid hv b h1
      · exact hp b h1

/-- C1 witness: a parsed chunk round-trips; a constructed chunk with the valid
type "ruSt" and payload "hi" round-trips. -/
theorem C1_witness :
    chunkTryFrom ((⟨0, ⟨114, 117, 83, 116⟩, [], 1958127106⟩ : Chunk).as_bytes) =
      .ok ⟨0, ⟨114, 117, 83, 116⟩, [], 1958127106⟩ ∧
    chunkTryFrom (Chunk.new ⟨114, 117, 83, 116⟩ [104, 105]).as_bytes =
      .ok (Chunk.new ⟨114, 117, 83, 116⟩ [104, 105]) :=
  ⟨C1_roundtrip.1 [0, 0, 0, 0, 114, 117, 83, 116, 116, 182, 166, 2] _ (by decide)
      (by decide),
   C1_roundtrip.2 ⟨114, 117, 83, 116⟩ [104, 105] (by decide) (by decide) (by decide)⟩

/-- The serialization of a constructed chunk, re-associated around the 8-byte
header prefix. -/
theorem as_bytes_new (t : ChunkType) (p : List Nat) (h : p.length < 4294967296) :
    (Chunk.new t p).as_bytes =
      (u32BeBytes p.length ++ t.bytes) ++
        (p ++ u32BeBytes (calculate_crc (t.bytes ++ p))) := by
  show u32BeBytes (p.length % 4294967296) ++ t.bytes ++ p ++
      u32BeBytes (calculate_crc (t.bytes ++ p)) = _
  rw [Nat.mod_eq_of_lt h]
  simp [List.append_assoc]

/-- Recognizer for checksum-mismatch results, used to state a counterexample. -/
def isCrcMismatchErr : Except ChunkError Chunk → Bool
  | .error (.crcMismatch _ _) => true
  | _ => false

/-- C9 counterexample: with the FromStr-accepted type "Rust" (reserved bit
invalid), flipping bit 0 of the single payload byte of the serialized chunk
makes reparsing fail with a type-validity error, not a checksum mismatch. -/
theorem C9_counterexample :
    ChunkType.from_str [82, 117, 115, 116] = .ok ⟨82, 117, 115, 116⟩ ∧
    isCrcMismatchErr (chunkTryFrom
      (((Chunk.new ⟨82, 117, 115, 116⟩ [0]).as_bytes).set (8 + 0)
        ((((Chunk.new ⟨82, 117, 115, 116⟩ [0]).as_bytes).getD (8 + 0) 0) ^^^ 2 ^ 0)))
      = false ∧
    chunkTryFrom
      (((Chunk.new ⟨82, 117, 115, 116⟩ [0]).as_bytes).set (8 + 0)
        ((((Chunk.new ⟨82, 117, 115, 116⟩ [0]).as_bytes).getD (8 + 0) 0) ^^^ 2 ^ 0)) =
      .error (.typeNotValid (.reservedBitInvalid (ChunkType.str ⟨82, 117, 115, 116⟩))) := by
  exact ⟨by decide, by decide, by decide⟩

/-- C9 (amended): for a chunk built from a type passing `is_valid` and a byte
payload of fewer than 2^32 bytes, flipping any single bit inside the payload
region of the serialized bytes makes reparsing fail with a checksum mismatch
(received: the stored CRC; expected: the CRC of the corrupted data), so the
corrupted chunk is never accepted. -/
theorem C9_flip (t : ChunkType) (p : List Nat) (i j : Nat)
    (hv : ChunkType.is_valid t = .ok ()) (hp : ∀ b ∈ p, b < 256)
    (hlen : p.length < 4294967296) (hi : i < p.length) (hj : j < 8) :
    chunkTryFrom (((Chunk.new t p).as_bytes).set (8 + i)
        ((((Chunk.new t p).as_bytes).getD (8 + i) 0) ^^^ 2 ^ j)) =
      .error (.crcMismatch (Chunk.new t p).crc
        (calculate_crc (t.bytes ++ p.set i (p.getD i 0 ^^^ 2 ^ j)))) ∧
    (Chunk.new t p).crc ≠ calculate_crc (t.bytes ++ p.set i (p.getD i 0 ^^^ 2 ^ j)) := by
  have hne : calculate_crc (t.bytes ++ p.set i (p.getD i 0 ^^^ 2 ^ j)) ≠
      calculate_crc (t.bytes ++ p) := calculate_crc_flip t.bytes p i j hi hj
  have hA : (u32BeBytes p.length ++ t.bytes).length = 8 := by
    simp [u32BeBytes, ChunkType.bytes]
  have habytes := as_bytes_new t p hlen
  have hget : ((Chunk.new t p).as_bytes).getD (8 + i) 0 = p.getD i 0 := by
    rw [habytes, List.getD_eq_getElem?_getD,
      List.getElem?_append_right (by rw [hA]; omega), hA,
      show 8 + i - 8 = i from by omega, List.getElem?_append_left hi,
      ← List.getD_eq_getElem?_getD]
  have hset : ((Chunk.new t p).as_bytes).set (8 + i) (p.getD i 0 ^^^ 2 ^ j) =
      (u32BeBytes p.length ++ t.bytes) ++
        ((p.set i (p.getD i 0 ^^^ 2 ^ j)) ++
          u32BeBytes (calculate_crc (t.bytes ++ p))) := by
    rw [habytes, List.set_append_right _ _ (by rw [hA]; omega), hA,
      show 8 + i - 8 = i from by omega, List.set_append_left _ _ hi]
  rw [hget, hset]
  have hcrclt : calculate_crc (t.bytes ++ p) < 4294967296 := by
    apply calculate_crc_lt
    intro b hb
    rcases List.mem_append.mp hb with h1 | h1
    · exact bytes_lt_of_valid hv b h1
    · exact hp b h1
  have hshape : (u32BeBytes p.length ++ t.bytes) ++
      ((p.set i (p.getD i 0 ^^^ 2 ^ j)) ++
        u32BeBytes (calculate_crc (t.bytes ++ p))) =
      p.length / 16777216 % 256 :: p.length / 65536 % 256 :: p.length / 256 % 256 ::
      p.length % 256 :: t.b0 :: t.b1 :: t.b2 :: t.b3 ::
      ((p.set i (p.getD i 0 ^^^ 2 ^ j)) ++
        calculate_crc (t.bytes ++ p) / 16777216 % 256 ::
        calculate_crc (t.bytes ++ p) / 65536 % 256 ::
        calculate_crc (t.bytes ++ p) / 256 % 256 ::
        calculate_crc (t.bytes ++ p) % 256 :: []) := by
    simp [u32BeBytes, ChunkType.bytes]
  rw [hshape, chunkTryFrom_concat _ _ _ _ _ _ _ _ _ _ _ _ _ _
    (by rw [List.length_set]; exact (u32FromBe_u32BeBytes p.length hlen).symm)]
  have hty : ChunkType.tryFromBytes t.b0 t.b1 t.b2 t.b3 = .ok ⟨t.b0, t.b1, t.b2, t.b3⟩ :=
    tryFromBytes_of_valid hv
  simp only [hty]
  have hstored : u32FromBe (calculate_crc (t.bytes ++ p) / 16777216 % 256)
      (calculate_crc (t.bytes ++ p) / 65536 % 256)
      (calculate_crc (t.bytes ++ p) / 256 % 256)
      (calculate_crc (t.bytes ++ p) % 256) = calculate_crc (t.bytes ++ p) :=
    u32FromBe_u32BeBytes _ hcrclt
  rw [hstored]
  have htb : ([t.b0, t.b1, t.b2, t.b3] : List Nat) = t.bytes := rfl
  rw [htb, if_neg (fun hcontra => hne hcontra.symm)]
  constructor
  · rw [chunk_new_crc]
  · rw [chunk_new_crc]
    exact fun hcontra => hne hcontra.symm

/-- C9 witness: the amended theorem at type "ruSt", payload [0], bit 0 of
payload byte 0. -/
theorem C9_witness :
    chunkTryFrom (((Chunk.new ⟨114, 117, 83, 116⟩ [0]).as_bytes).set (8 + 0)
        ((((Chunk.new ⟨114, 117, 83, 116⟩ [0]).as_bytes).getD (8 + 0) 0) ^^^ 2 ^ 0)) =
      .error (.crcMismatch (Chunk.new ⟨114, 117, 83, 116⟩ [0]).crc
        (calculate_crc ((ChunkType.mk 114 117 83 116).bytes ++
          ([0] : List Nat).set 0 ((([0] : List Nat).getD 0 0) ^^^ 2 ^ 0)))) ∧
    (Chunk.new ⟨114, 117, 83, 116⟩ [0]).crc ≠
      calculate_crc ((ChunkType.mk 114 117 83 116).bytes ++
        ([0] : List Nat).set 0 ((([0] : List Nat).getD 0 0) ^^^ 2 ^ 0)) :=
  C9_flip ⟨114, 117, 83, 116⟩ [0] 0 0 (by decide) (by decide) (by decide) (by decide)
    (by decide)

/-- C10: a successful parse reads only the first 12 + payload-length bytes:
appending any suffix leaves the result unchanged, and parsing just that prefix
already yields the same chunk. -/
theorem C10_suffix (b s : List Nat) (c : Chunk) (h : chunkTryFrom b = .ok c) :
    chunkTryFrom (b ++ s) = .ok c ∧
    chunkTryFrom (b.take (12 + c.chunk_data.length)) = .ok c := by
  obtain ⟨l0, l1, l2, l3, t0, t1, t2, t3, c0, c1, c2, c3, suf, hbs, hlen, hdl,
    hct, hval, hcrc, hcrc2⟩ := chunkTryFrom_ok_decomp h
  have hty : ChunkType.tryFromBytes t0 t1 t2 t3 = .ok ⟨t0, t1, t2, t3⟩ :=
    tryFromBytes_of_valid (by rw [← hct]; exact hval)
  have hcomp : ∀ tail : List Nat,
      chunkTryFrom (l0 :: l1 :: l2 :: l3 :: t0 :: t1 :: t2 :: t3 ::
        (c.chunk_data ++ c0 :: c1 :: c2 :: c3 :: tail)) = .ok c := by
    intro tail
    rw [chunkTryFrom_concat _ _ _ _ _ _ _ _ _ _ _ _ _ _ (by rw [hdl, hlen])]
    simp only [hty]
    rw [if_pos (by rw [← hcrc, hcrc2, hct]; rfl)]
    have hc : (⟨u32FromBe l0 l1 l2 l3, ⟨t0, t1, t2, t3⟩, c.chunk_data,
        u32FromBe c0 c1 c2 c3⟩ : Chunk) = c := by
      rw [← hlen, ← hct, ← hcrc]
    rw [hc]
  constructor
  · subst hbs
    have h2 := hcomp (suf ++ s)
    rw [← h2]
    congr 1
    simp
  · subst hbs
    have h2 := hcomp []
    rw [← h2]
    congr 1
    have hsplit : (l0 :: l1 :: l2 :: l3 :: t0 :: t1 :: t2 :: t3 ::
        (c.chunk_data ++ c0 :: c1 :: c2 :: c3 :: suf)) =
        ([l0, l1, l2, l3, t0, t1, t2, t3] ++ c.chunk_data) ++
          ([c0, c1, c2, c3] ++ suf) := by
      simp
    rw [hsplit,
      show 12 + c.chunk_data.length =
        ([l0, l1, l2, l3, t0, t1, t2, t3] ++ c.chunk_data).length + 4 from by
          simp; omega,
      List.take_append, List.take_left' (by rfl)]
    simp

/-- C10 witness: both equalities at a concrete parsed chunk with a nonempty
ignored suffix. -/
theorem C10_witness :
    chunkTryFrom ([0, 0, 0, 0, 114, 117, 83, 116, 116, 182, 166, 2, 9, 9] ++ [7]) =
      .ok ⟨0, ⟨114, 117, 83, 116⟩, [], 1958127106⟩ ∧
    chunkTryFrom (([0, 0, 0, 0, 114, 117, 83, 116, 116, 182, 166, 2, 9, 9] : List Nat).take
        (12 + (⟨0, ⟨114, 117, 83, 116⟩, [], 1958127106⟩ : Chunk).chunk_data.length)) =
      .ok ⟨0, ⟨114, 117, 83, 116⟩, [], 1958127106⟩ :=
  C10_suffix [0, 0, 0, 0, 114, 117, 83, 116, 116, 182, 166, 2, 9, 9] [7] _ (by decide)

end Pngme
